import Mathlib

/-!
Verification of the JPE circuit-model repository's fitting core.

This file shallowly embeds the pure numerical kernel of the repository:

* `src/fitting/R_int/model.py`      — the thermal model (`T2R_int`, `P2T`, `T2R_th`);
* `src/fitting/R_int/solvers.py`    — the residual functions and the per-point
  root-finding loop (`solve4T`, `solve4V_int`, `I_int2V_int`);
* `src/fitting/R_int/fitting.py`    — the least-squares wrapper (`perform_fitting`,
  `fit_callback`);
* `src/fitting/R_int/processing.py` — the DataFrame processing (`process_data`);
* `src/fitting/antenna_param_fit/model.py` — impedance combination
  (`series_sum`, `parallel_sum`).

Modelling conventions.  Machine floats become exact numbers (`ℝ` where the code
uses transcendental functions, `ℚ` where everything is rational, `ℂ` for
impedances).  The IEEE value NaN, used by the code as a per-point failure
sentinel, becomes `Option.none`; the IEEE value `np.inf`, produced by
`parallel_sum`'s guard, becomes the `none` branch of an `Option ℂ` result.
The external scipy root finder is an abstract parameter: a function producing a
success flag and a last iterate, exactly the two fields of scipy's result that
the code reads.  Logging becomes an explicit Boolean "warned" component where a
claim is about it; raising an exception becomes an `Except` result.
-/

namespace JPE

/-! ## Thermal model — src/fitting/R_int/model.py -/

/-- `T2R_int(T, A, B, C, D) = A * (np.exp(-T / B) + np.exp(-(T**2) / C)) + D`. -/
noncomputable def T2R_int (T A B C D : ℝ) : ℝ :=
  A * (Real.exp (-T / B) + Real.exp (-(T ^ 2) / C)) + D

/-- `P2T(P, R_th, T_bath) = R_th * P + T_bath`. -/
def P2T (P R_th T_bath : ℝ) : ℝ :=
  R_th * P + T_bath

/-- `T2R_th(T, alpha, beta, gamma) = gamma / (1 - alpha * np.exp(-beta * T))`. -/
noncomputable def T2R_th (T alpha beta gamma : ℝ) : ℝ :=
  gamma / (1 - alpha * Real.exp (-beta * T))

/-! ## Residual functions and the solver loop — src/fitting/R_int/solvers.py -/

/-- `solve4T(T, P, alpha, beta, gamma, T_bath)` computes
`R_th = T2R_th(T, alpha, beta, gamma)`, `T_calc = P2T(P, R_th, T_bath)` and
returns `T - T_calc`. -/
noncomputable def solve4T (T P alpha beta gamma T_bath : ℝ) : ℝ :=
  T - P2T P (T2R_th T alpha beta gamma) T_bath

/-- The two fields of a `scipy.optimize.root` result that the code reads:
`sol.success` and the (first coordinate of the) last iterate `sol.x[0]`. -/
structure RootResult where
  success : Bool
  x : ℝ

/-- `solve4V_int(V_int, I_int, A, B, C, D, alpha, beta, gamma, T_bath)`.
The inner call `root(fun=solve4T, x0=30.0, args=(P, alpha, beta, gamma, T_bath))`
is abstracted as `innerRoot : ℝ → RootResult`, a function of the power
`P = V_int * I_int` (the remaining arguments are fixed parameters).  The
`logging.warning` on non-convergence is modelled as the Boolean first component
of the result; the code then proceeds unconditionally with `T_val = sol.x[0]`
and returns `V_int - T2R_int(T_val, A, B, C, D) * I_int`, raising nothing: the
embedding is a total function. -/
noncomputable def solve4V_int (innerRoot : ℝ → RootResult)
    (V_int I_int A B C D : ℝ) : Bool × ℝ :=
  let P := V_int * I_int
  let sol := innerRoot P
  let T_val := sol.x
  (!sol.success, V_int - T2R_int T_val A B C D * I_int)

/-- `I_int2V_int(I_ints, ...)` loops over the input array; for each element `I`
it calls `root(fun=solve4V_int, x0=20e-3, args=(I, A, B, C, D, alpha, beta,
gamma, T_bath))` — abstracted as `rootFind : ℝ → RootResult`, a function of the
single element `I` — and stores `sol.x[0]` on success and NaN (here: `none`)
otherwise. -/
def I_int2V_int (rootFind : ℝ → RootResult) (I_ints : List ℝ) :
    List (Option ℝ) :=
  I_ints.map (fun I =>
    let sol := rootFind I
    if sol.success then some sol.x else none)

/-! ## Impedance combination — src/fitting/antenna_param_fit/model.py -/

/-- `series_sum(*impedances)`: with no arguments the code returns an empty
array (no scalar value, modelled `none`); otherwise it starts from the first
impedance and folds `result = result + z` over the rest. -/
def series_sum : List ℂ → Option ℂ
  | [] => none
  | z :: rest => some (rest.foldl (fun acc w => acc + w) z)

/-- `parallel_sum(*impedances)`: forms the admittances `1 / z`, sums them, and
divides `1.0` by the sum; `np.where(total_susceptance != 0, ..., np.inf)`
substitutes `np.inf` exactly when the total admittance is zero (the
`epsilon` substitution only keeps that division warning-free; the value on
that branch is `np.inf` either way).  The infinite branch is modelled as
`none`. -/
noncomputable def parallel_sum (impedances : List ℂ) : Option ℂ :=
  let total_susceptance := (impedances.map (fun z => 1 / z)).sum
  if total_susceptance = 0 then none else some (1 / total_susceptance)

/-! ## Least-squares wrapper — src/fitting/R_int/fitting.py -/

/-- `fit_callback(params, iter, resid, ...)` computes `chi_sq = np.sum(resid**2)`,
logs it, and returns `False` (the "continue" value).  Modelled as the pair of
the logged chi-square and the returned abort flag. -/
def fit_callback (resid : List ℝ) : ℝ × Bool :=
  ((resid.map (fun r => r ^ 2)).sum, false)

/-- The arguments `perform_fitting` passes to `model.fit`: data, independent
variable, per-point weights, and the cap on function evaluations.  Array
elements are `Option ℝ` with `none` for NaN. -/
structure FitCall where
  ydata : List (Option ℝ)
  xdata : List (Option ℝ)
  weights : List (Option ℝ)
  maxNfev : Option ℕ

/-- Boolean-mask selection, the embedding of NumPy's `arr[mask]`. -/
def maskSelect {α : Type} (xs : List α) (mask : List Bool) : List α :=
  (xs.zip mask).filterMap (fun p => if p.2 then some p.1 else none)

/-- `perform_fitting(model, params, I_int, V_int)` computes
`valid = ~np.isnan(V_int) & ~np.isnan(I_int)`, selects `I_valid = I_int[valid]`
and `V_valid = V_int[valid]`, and calls
`model.fit(V_valid, params, I_ints=I_valid, weights=V_valid**2,
iter_cb=fit_callback, max_nfev=100)`.  The embedding records the call's
arguments. -/
def perform_fitting (I_int V_int : List (Option ℝ)) : FitCall :=
  let valid := List.zipWith (fun v i => v.isSome && i.isSome) V_int I_int
  { ydata := maskSelect V_int valid
    xdata := maskSelect I_int valid
    weights := (maskSelect V_int valid).map (Option.map (fun v => v ^ 2))
    maxNfev := some 100 }

/-! ## DataFrame processing — src/fitting/R_int/processing.py

A pandas DataFrame is modelled as an ordered association list of named
columns of rational values; `df[name] = vals` replaces the column in place
when the name exists and appends a new column otherwise, as pandas does. -/

abbrev Col := List ℚ

abbrev DataFrame := List (String × Col)

/-- `name in df.columns`. -/
def hasCol (df : DataFrame) (name : String) : Bool :=
  df.any (fun p => p.1 == name)

/-- `df[name]`, `none` when the column is absent. -/
def getCol (df : DataFrame) (name : String) : Option Col :=
  (df.find? (fun p => p.1 == name)).map Prod.snd

/-- `df[name] = vals`. -/
def setCol (df : DataFrame) (name : String) (vals : Col) : DataFrame :=
  if hasCol df name then
    df.map (fun p => if p.1 == name then (name, vals) else p)
  else
    df ++ [(name, vals)]

/-- The columns `process_data` requires. -/
def requiredCols : List String := ["Reduced Voltage", "Current"]

/-- `process_data(df)`: copies the frame, and when both "Reduced Voltage" and
"Current" are present sets
`df["Power"] = df["Reduced Voltage"] * df["Current"] * 1e-3` and
`df["Resistance"] = df["Reduced Voltage"] / df["Current"] * 1e3`;
otherwise it raises `KeyError` naming the set
`{"Reduced Voltage", "Current"} - set(df.columns)` of missing columns
(modelled as the `Except.error` carrying that set as a list). -/
def process_data (df : DataFrame) : Except (List String) DataFrame :=
  if hasCol df "Reduced Voltage" && hasCol df "Current" then
    let rv := (getCol df "Reduced Voltage").getD []
    let cur := (getCol df "Current").getD []
    let power := List.zipWith (fun v i => v * i * (1 / 1000)) rv cur
    let resistance := List.zipWith (fun v i => v / i * 1000) rv cur
    Except.ok (setCol (setCol df "Power" power) "Resistance" resistance)
  else
    Except.error (requiredCols.filter (fun c => !(hasCol df c)))

/-! ## Helper lemmas -/

lemma foldl_add_eq (l : List ℂ) (a : ℂ) :
    l.foldl (fun acc w => acc + w) a = a + l.sum := by
  induction l generalizing a with
  | nil => simp
  | cons x xs ih => simp [List.foldl_cons, ih, List.sum_cons]; ring

@[simp] lemma maskSelect_nil_left {α : Type} (mask : List Bool) :
    maskSelect ([] : List α) mask = [] := by
  simp [maskSelect]

@[simp] lemma maskSelect_nil_right {α : Type} (xs : List α) :
    maskSelect xs [] = [] := by
  simp [maskSelect]

@[simp] lemma maskSelect_cons {α : Type} (x : α) (xs : List α) (b : Bool)
    (mask : List Bool) :
    maskSelect (x :: xs) (b :: mask)
      = if b then x :: maskSelect xs mask else maskSelect xs mask := by
  cases b <;> simp [maskSelect, List.filterMap_cons]

/-! ## Theorems for the claims -/

/-- C1: `solve4T` returns the residual `T - (R_th(T)*P + T_bath)` with
`R_th(T) = gamma / (1 - alpha*exp(-beta*T))`; with `alpha = 0` the thermal
resistance degenerates to the constant `gamma` and the residual vanishes at
the closed-form fixed point `T = gamma*P + T_bath`. -/
theorem solve4T_residual (T P alpha beta gamma T_bath : ℝ) :
    solve4T T P alpha beta gamma T_bath
        = T - (gamma / (1 - alpha * Real.exp (-beta * T)) * P + T_bath) ∧
    T2R_th T 0 beta gamma = gamma ∧
    solve4T (gamma * P + T_bath) P 0 beta gamma T_bath = 0 := by
  refine ⟨rfl, ?_, ?_⟩
  · simp [T2R_th]
  · simp [solve4T, T2R_th, P2T]

/-- C2: `I_int2V_int` preserves the length of the input array, and its `i`-th
element is determined by the `i`-th input alone: the root-finder's solution
when that point converged and NaN (`none`) otherwise. -/
theorem I_int2V_int_pointwise (rootFind : ℝ → RootResult) (I_ints : List ℝ) :
    (I_int2V_int rootFind I_ints).length = I_ints.length ∧
    ∀ i : ℕ, (I_int2V_int rootFind I_ints).get? i
        = (I_ints.get? i).map (fun I =>
            if (rootFind I).success then some (rootFind I).x else none) := by
  refine ⟨by simp [I_int2V_int], fun i => ?_⟩
  simp [I_int2V_int, List.get?_eq_getElem?, List.getElem?_map]

/-- C3: `solve4V_int` is total (it raises nothing): whatever the inner root
finder reports, the returned residual is `V_int - T2R_int(T_last)*I_int`
computed from the last iterate `T_last`; when the inner solve failed the
warning flag is set and the very same residual is still returned. -/
theorem solve4V_int_total (innerRoot : ℝ → RootResult)
    (V_int I_int A B C D : ℝ) :
    (solve4V_int innerRoot V_int I_int A B C D).2
        = V_int - T2R_int (innerRoot (V_int * I_int)).x A B C D * I_int ∧
    ((innerRoot (V_int * I_int)).success = false →
      solve4V_int innerRoot V_int I_int A B C D
        = (true, V_int - T2R_int (innerRoot (V_int * I_int)).x A B C D * I_int)) := by
  refine ⟨rfl, fun h => ?_⟩
  simp [solve4V_int, h]

/-- Witness for C3: a concrete inner solver that fails with last iterate 30;
the call still returns a value, with the warning flag set. -/
theorem solve4V_int_total_witness :
    solve4V_int (fun _ => ⟨false, 30⟩) 1 0 1 1 1 1 = (true, 1) := by
  have h := (solve4V_int_total (fun _ => ⟨false, 30⟩) 1 0 1 1 1 1).2 rfl
  rw [h]
  norm_num

/-- C5: on a non-empty argument list `series_sum` is the arithmetic sum of the
impedances, hence invariant under permutation (and so under any regrouping). -/
theorem series_sum_eq_sum (zs ws : List ℂ) (h : zs ≠ []) (hperm : zs.Perm ws) :
    series_sum zs = some zs.sum ∧ series_sum ws = some zs.sum := by
  have key : ∀ l : List ℂ, l ≠ [] → series_sum l = some l.sum := by
    intro l hl
    cases l with
    | nil => exact absurd rfl hl
    | cons z rest => simp [series_sum, foldl_add_eq]
  have hws : ws ≠ [] := by
    intro hw
    subst hw
    exact h hperm.eq_nil
  refine ⟨key zs h, ?_⟩
  rw [key ws hws, hperm.sum_eq]

/-- Witness for C5 at the list `[1, 2]` and its transposition `[2, 1]`. -/
theorem series_sum_eq_sum_witness :
    series_sum [(1 : ℂ), 2] = some 3 ∧ series_sum [(2 : ℂ), 1] = some 3 := by
  have h := series_sum_eq_sum [(1 : ℂ), 2] [(2 : ℂ), 1] (by simp)
    (List.Perm.swap 2 1 [])
  refine ⟨?_, ?_⟩
  · rw [h.1]; norm_num
  · rw [h.2]; norm_num

/-- C6: for a nonzero impedance `z`, `parallel_sum [z, z] = z / 2`. -/
theorem parallel_sum_self_half (z : ℂ) (h : z ≠ 0) :
    parallel_sum [z, z] = some (z / 2) := by
  have htot : (([z, z].map (fun w => 1 / w)).sum) = 2 / z := by
    simp; ring
  have hne : (2 : ℂ) / z ≠ 0 := div_ne_zero two_ne_zero h
  simp only [parallel_sum]
  rw [htot, if_neg hne, one_div_div]

/-- Witness for C6 at `z = 1`. -/
theorem parallel_sum_self_half_witness :
    parallel_sum [(1 : ℂ), 1] = some (1 / 2) :=
  parallel_sum_self_half 1 one_ne_zero

/-- C4 counterexample: with one small impedance `1/1000000` in parallel with
`1`, the total admittance is `1000001 ≠ 0`, so the guard does not fire and the
result is the finite value `1/1000001` — of magnitude below 1, i.e. a short
circuit, not an effectively-infinite impedance. -/
theorem parallel_sum_small_not_inf :
    parallel_sum [(1 : ℂ) / 1000000, 1] = some (1 / 1000001) ∧
    Complex.abs ((1 : ℂ) / 1000001) < 1 := by
  constructor
  · have htot : (([(1 : ℂ) / 1000000, 1].map (fun w => 1 / w)).sum)
        = 1000001 := by
      norm_num
    simp only [parallel_sum]
    rw [htot, if_neg (by norm_num)]
  · have h1 : ((1 : ℂ) / 1000001) = ((1 / 1000001 : ℝ) : ℂ) := by
      push_cast
      ring
    rw [h1, Complex.abs_ofReal, abs_of_pos (by norm_num)]
    norm_num

/-- C4 amended: the epsilon/`np.where` guard in `parallel_sum` fires exactly
when the total admittance is zero — e.g. for the cancelling pair `[z, -z]` —
and then substitutes the effectively-infinite impedance (`none`); an impedance
tending to 0 instead drives the result to 0: `parallel_sum [z, 1] = z/(1+z)`,
finite when `1 + z ≠ 0`. -/
theorem parallel_sum_guard (z : ℂ) (h : z ≠ 0) :
    parallel_sum [z, -z] = none ∧
    (1 + z ≠ 0 → parallel_sum [z, 1] = some (z / (1 + z))) := by
  constructor
  · have htot : (([z, -z].map (fun w => 1 / w)).sum) = 0 := by
      simp [inv_neg]
    simp only [parallel_sum]
    rw [htot, if_pos rfl]
  · intro h1
    have htot : (([z, 1].map (fun w => 1 / w)).sum) = (1 + z) / z := by
      field_simp
    have hne : ((1 + z) / z) ≠ 0 := div_ne_zero h1 h
    simp only [parallel_sum]
    rw [htot, if_neg hne, one_div_div]

/-- Witness for C4 amended, at `z = 1/1000`: the cancelling pair returns the
infinite marker, while the near-short pair returns the small finite `1/1001`. -/
theorem parallel_sum_guard_witness :
    parallel_sum [(1 : ℂ) / 1000, -(1 / 1000)] = none ∧
    parallel_sum [(1 : ℂ) / 1000, 1] = some (1 / 1001) := by
  have h := parallel_sum_guard ((1 : ℂ) / 1000) (by norm_num)
  refine ⟨h.1, ?_⟩
  rw [h.2 (by norm_num)]
  norm_num

/-- C7: the thermal fit selects exactly the samples where both arrays are
non-NaN (every selected value is defined, and the two selected arrays stay
aligned), weights each point by the dependent value squared, caps the number
of function evaluations at 100, and its callback reports the sum of squared
residuals and always answers `false` ("continue"). -/
theorem perform_fitting_valid (I_int V_int : List (Option ℝ)) :
    ((perform_fitting I_int V_int).ydata.all Option.isSome) = true ∧
    ((perform_fitting I_int V_int).xdata.all Option.isSome) = true ∧
    (perform_fitting I_int V_int).xdata.length
        = (perform_fitting I_int V_int).ydata.length ∧
    (perform_fitting I_int V_int).weights
        = (perform_fitting I_int V_int).ydata.map (Option.map (fun v => v ^ 2)) ∧
    (perform_fitting I_int V_int).maxNfev = some 100 ∧
    ∀ resid : List ℝ,
      (fit_callback resid).1 = (resid.map (fun r => r ^ 2)).sum ∧
      (fit_callback resid).2 = false := by
  refine ⟨?_, ?_, ?_, rfl, rfl, fun resid => ⟨rfl, rfl⟩⟩
  · show ((maskSelect V_int _).all Option.isSome) = true
    induction V_int generalizing I_int with
    | nil => simp [perform_fitting]
    | cons v Vt ih =>
      cases I_int with
      | nil => simp
      | cons i It =>
        simp only [List.zipWith_cons_cons, maskSelect_cons]
        cases hb : (v.isSome && i.isSome) with
        | false => simpa using ih It
        | true =>
          have hvi : v.isSome = true ∧ i.isSome = true := by simpa using hb
          simpa [hvi.1] using ih It
  · show ((maskSelect I_int _).all Option.isSome) = true
    induction V_int generalizing I_int with
    | nil => simp
    | cons v Vt ih =>
      cases I_int with
      | nil => simp
      | cons i It =>
        simp only [List.zipWith_cons_cons, maskSelect_cons]
        cases hb : (v.isSome && i.isSome) with
        | false => simpa using ih It
        | true =>
          have hvi : v.isSome = true ∧ i.isSome = true := by simpa using hb
          simpa [hvi.2] using ih It
  · show (maskSelect I_int _).length = (maskSelect V_int _).length
    induction V_int generalizing I_int with
    | nil => simp
    | cons v Vt ih =>
      cases I_int with
      | nil => simp
      | cons i It =>
        simp only [List.zipWith_cons_cons, maskSelect_cons]
        cases hb : (v.isSome && i.isSome) with
        | false => simpa using ih It
        | true => simpa using ih It

/-! ## Column-lookup lemmas for the DataFrame model -/

lemma hasCol_of_getCol {df : DataFrame} {c : String} {v : Col}
    (h : getCol df c = some v) : hasCol df c = true := by
  unfold getCol at h
  cases hf : df.find? (fun p => p.1 == c) with
  | none => rw [hf] at h; simp at h
  | some q =>
    have hmem := List.mem_of_find?_eq_some hf
    have hq := List.find?_some hf
    exact List.any_eq_true.mpr ⟨q, hmem, hq⟩

lemma find?_of_not_hasCol (df : DataFrame) (c : String)
    (h : hasCol df c = false) : df.find? (fun p => p.1 == c) = none := by
  rw [List.find?_eq_none]
  intro x hx hpx
  have hcc : hasCol df c = true := List.any_eq_true.mpr ⟨x, hx, hpx⟩
  rw [h] at hcc
  exact Bool.false_ne_true hcc

lemma find?_map_set (name : String) (vals : Col) :
    ∀ df : DataFrame, hasCol df name = true →
      (df.map (fun p => if p.1 == name then (name, vals) else p)).find?
          (fun p => p.1 == name) = some (name, vals) := by
  intro df
  induction df with
  | nil => intro h; simp [hasCol] at h
  | cons p tl ih =>
    intro h
    cases hp : (p.1 == name) with
    | true =>
      simp only [List.map_cons, if_pos hp]
      rw [List.find?_cons_of_pos _ (by simp)]
    | false =>
      have htl : hasCol tl name = true := by
        simp only [hasCol, List.any_cons, hp, Bool.false_or] at h
        exact h
      simp only [List.map_cons, if_neg (by simp [hp] : ¬ (p.1 == name) = true)]
      rw [List.find?_cons_of_neg _ (by simp [hp])]
      exact ih htl

lemma find?_map_set_ne (name c : String) (vals : Col) (hne : c ≠ name) :
    ∀ df : DataFrame,
      (df.map (fun p => if p.1 == name then (name, vals) else p)).find?
          (fun p => p.1 == c)
        = df.find? (fun p => p.1 == c) := by
  have hnc : (name == c) = false := beq_eq_false_iff_ne.mpr (Ne.symm hne)
  intro df
  induction df with
  | nil => rfl
  | cons p tl ih =>
    cases hp : (p.1 == name) with
    | true =>
      have hpc : (p.1 == c) = false := by
        have h1 : p.1 = name := by simpa using hp
        rw [h1]; exact hnc
      simp only [List.map_cons, if_pos hp]
      rw [List.find?_cons_of_neg _ (by simp [hnc]),
        List.find?_cons_of_neg _ (by simp [hpc])]
      exact ih
    | false =>
      simp only [List.map_cons, if_neg (by simp [hp] : ¬ (p.1 == name) = true)]
      cases hc2 : (p.1 == c) with
      | true =>
        rw [List.find?_cons_of_pos _ (by simp [hc2]),
          List.find?_cons_of_pos _ (by simp [hc2])]
      | false =>
        rw [List.find?_cons_of_neg _ (by simp [hc2]),
          List.find?_cons_of_neg _ (by simp [hc2])]
        exact ih

lemma getCol_setCol_same (df : DataFrame) (name : String) (vals : Col) :
    getCol (setCol df name vals) name = some vals := by
  unfold setCol getCol
  by_cases hc : hasCol df name
  · rw [if_pos hc, find?_map_set name vals df hc]
    rfl
  · rw [if_neg hc, List.find?_append,
      find?_of_not_hasCol df name (by simpa using hc)]
    simp [List.find?]

lemma getCol_setCol_ne (df : DataFrame) (name c : String) (vals : Col)
    (hne : c ≠ name) : getCol (setCol df name vals) c = getCol df c := by
  have hnc : (name == c) = false := beq_eq_false_iff_ne.mpr (Ne.symm hne)
  unfold setCol getCol
  by_cases hc : hasCol df name
  · rw [if_pos hc, find?_map_set_ne name c vals hne df]
  · rw [if_neg hc, List.find?_append]
    have hsing : List.find? (fun p => p.1 == c) [(name, vals)] = none := by
      simp [List.find?, hnc]
    rw [hsing, Option.or_none]

/-- C8: when both "Reduced Voltage" and "Current" are present, `process_data`
succeeds and adds a Power column `v * i * 1e-3` and a Resistance column
`v / i * 1e3`, element-wise over the two source columns. -/
theorem process_data_ok (df : DataFrame) (rv cur : Col)
    (h1 : getCol df "Reduced Voltage" = some rv)
    (h2 : getCol df "Current" = some cur) :
    ∃ res, process_data df = Except.ok res ∧
      getCol res "Power"
        = some (List.zipWith (fun v i => v * i * (1 / 1000)) rv cur) ∧
      getCol res "Resistance"
        = some (List.zipWith (fun v i => v / i * 1000) rv cur) := by
  have hc1 := hasCol_of_getCol h1
  have hc2 := hasCol_of_getCol h2
  have hres : process_data df
      = Except.ok (setCol (setCol df "Power"
          (List.zipWith (fun v i => v * i * (1 / 1000)) rv cur)) "Resistance"
          (List.zipWith (fun v i => v / i * 1000) rv cur)) := by
    unfold process_data
    rw [h1, h2, if_pos (by simp [hc1, hc2])]
    rfl
  refine ⟨_, hres, ?_, ?_⟩
  · rw [getCol_setCol_ne _ _ _ _ (by decide), getCol_setCol_same]
  · rw [getCol_setCol_same]

/-- Witness for C8 on the spec's end-to-end example: Current = [1, 2] (mA) and
Reduced Voltage = [0.1, 0.2] (V) give Power = [1e-4, 4e-4] (W) and
Resistance = [100, 100] (Ohm). -/
theorem process_data_ok_witness :
    ∃ res, process_data
        [("Reduced Voltage", [1/10, 1/5]), ("Current", [1, 2])]
        = Except.ok res ∧
      getCol res "Power" = some [1/10000, 1/2500] ∧
      getCol res "Resistance" = some [100, 100] := by
  obtain ⟨res, hres, hp, hr⟩ := process_data_ok
      [("Reduced Voltage", [1/10, 1/5]), ("Current", [1, 2])]
      [1/10, 1/5] [1, 2] rfl rfl
  refine ⟨res, hres, ?_, ?_⟩
  · rw [hp]; norm_num [List.zipWith]
  · rw [hr]; norm_num [List.zipWith]

/-- C9: when "Reduced Voltage" or "Current" (or both) is absent,
`process_data` fails with an error naming exactly the missing required
columns. -/
theorem process_data_missing (df : DataFrame)
    (h : hasCol df "Reduced Voltage" = false ∨ hasCol df "Current" = false) :
    process_data df
        = Except.error (requiredCols.filter (fun c => !(hasCol df c))) ∧
    ∀ c, c ∈ requiredCols.filter (fun c => !(hasCol df c))
        ↔ (c ∈ requiredCols ∧ hasCol df c = false) := by
  constructor
  · unfold process_data
    have hcond : ¬ ((hasCol df "Reduced Voltage" && hasCol df "Current")
        = true) := by
      rcases h with h | h <;> simp [h]
    rw [if_neg hcond]
  · intro c
    simp [List.mem_filter]

/-- Witness for C9: a table lacking only "Current" errors naming exactly
`["Current"]`. -/
theorem process_data_missing_witness :
    process_data [("Reduced Voltage", [(1 : ℚ)])]
      = Except.error ["Current"] := by
  have h := process_data_missing [("Reduced Voltage", [(1 : ℚ)])]
    (Or.inr (by decide))
  rw [h.1]
  rfl

/-- C10 counterexample: on a frame that already has a "Power" column,
`process_data` overwrites it, so not every original column's values survive
into the result. -/
theorem process_data_overwrites_power :
    ∃ res,
      process_data
          [("Reduced Voltage", [(1 : ℚ)]), ("Current", [1]), ("Power", [5])]
        = Except.ok res ∧
      getCol res "Power"
        ≠ getCol [("Reduced Voltage", [(1 : ℚ)]), ("Current", [1]),
            ("Power", [5])] "Power" := by
  have hres : process_data
      [("Reduced Voltage", [(1 : ℚ)]), ("Current", [1]), ("Power", [5])]
      = Except.ok (setCol (setCol
          [("Reduced Voltage", [(1 : ℚ)]), ("Current", [1]), ("Power", [5])]
          "Power" (List.zipWith (fun v i => v * i * (1 / 1000)) [1] [1]))
          "Resistance" (List.zipWith (fun v i => v / i * 1000) [1] [1])) := by
    unfold process_data
    rw [if_pos (by decide)]
    rfl
  refine ⟨_, hres, ?_⟩
  rw [getCol_setCol_ne _ _ _ _ (by decide), getCol_setCol_same]
  have hold : getCol [("Reduced Voltage", [(1 : ℚ)]), ("Current", [1]),
      ("Power", [5])] "Power" = some [5] := rfl
  rw [hold]
  norm_num [List.zipWith]

/-- C10 amended: `process_data` is pure — it builds a fresh frame and the
argument is untouched — and on success every column other than "Power" and
"Resistance" keeps its original values; "Power" and "Resistance" are set,
overwriting existing columns of those names. -/
theorem process_data_preserves_cols (df res : DataFrame) (c : String)
    (hok : process_data df = Except.ok res)
    (hp : c ≠ "Power") (hr : c ≠ "Resistance") :
    getCol res c = getCol df c := by
  unfold process_data at hok
  by_cases hcond : (hasCol df "Reduced Voltage" && hasCol df "Current") = true
  · rw [if_pos hcond] at hok
    injection hok with hok
    rw [← hok, getCol_setCol_ne _ _ _ _ hr, getCol_setCol_ne _ _ _ _ hp]
  · rw [if_neg hcond] at hok
    cases hok

/-- Witness for C10 amended: the "Current" column of the concrete successful
run keeps its original values. -/
theorem process_data_preserves_cols_witness :
    getCol (setCol (setCol [("Reduced Voltage", [(1 : ℚ)]), ("Current", [1])]
        "Power" (List.zipWith (fun v i => v * i * (1 / 1000)) [1] [1]))
        "Resistance" (List.zipWith (fun v i => v / i * 1000) [1] [1])) "Current"
      = getCol [("Reduced Voltage", [(1 : ℚ)]), ("Current", [1])] "Current" :=
  process_data_preserves_cols
    [("Reduced Voltage", [(1 : ℚ)]), ("Current", [1])]
    (setCol (setCol [("Reduced Voltage", [(1 : ℚ)]), ("Current", [1])]
        "Power" (List.zipWith (fun v i => v * i * (1 / 1000)) [1] [1]))
        "Resistance" (List.zipWith (fun v i => v / i * 1000) [1] [1]))
    "Current"
    (by unfold process_data; rw [if_pos (by decide)]; rfl)
    (by decide) (by decide)

end JPE
